import Mathlib

/-!
Verification of the document segmentation engine in `split_agreement.py`
(class `AgreementSplitter`): text normalisation, pattern detection, marker
collection, boundary construction, section merging and output planning.

Python dictionaries built by the pipeline are embedded as Lean structures;
Python integers are embedded as `Int` (page numbers, confidences,
thresholds) or `Nat` (per-category counters, which start at 0 and are only
incremented).  Page texts are plain strings; the external PDF reader and
writer are out of scope and appear only as parameters.
-/

namespace SplitAgreement

/-- A detected section marker, as built in `find_all_sections`
(the dict with keys `type`, `page`, `confidence`, `header`). -/
structure Marker where
  type : String
  page : Int
  confidence : Int
  header : String
  deriving DecidableEq, Repr

/-- A page-range section, as built in `build_sections`
(the dict with keys `type`, `start_page`, `end_page`, `confidence`, `header`). -/
structure Section where
  type : String
  start_page : Int
  end_page : Int
  confidence : Int
  header : String
  deriving DecidableEq, Repr

/-- The loop of `merge_sections` (lines 191-206): `current` is the running
accumulator, the list argument is the remaining tail `sections[1:]`.
On a merge only `end_page` and `confidence` of the accumulator are updated,
exactly as in the Python code. -/
def mergeAux (thr : Int) (current : Section) : List Section → List Section
  | [] => [current]
  | next :: rest =>
    if current.type = next.type ∧ next.start_page - current.end_page ≤ thr then
      mergeAux thr { current with
                      end_page := next.end_page,
                      confidence := max current.confidence next.confidence } rest
    else
      current :: mergeAux thr next rest

/-- Embedding of `AgreementSplitter.merge_sections` (lines 186-207): lists of length at
most one are returned unchanged, otherwise the accumulator loop runs with
`current = sections[0]`. -/
def merge_sections (thr : Int) (sections : List Section) : List Section :=
  if sections.length ≤ 1 then sections
  else
    match sections with
    | [] => []
    | s :: rest => mergeAux thr s rest

/-- Written from the words of the spec: two sections may merge exactly when
they have identical category and the gap `next.start_page - current.end_page`
is at most the merge threshold. -/
def specShouldMerge (thr : Int) (cur next : Section) : Prop :=
  cur.type = next.type ∧ next.start_page - cur.end_page ≤ thr

instance (thr : Int) (cur next : Section) : Decidable (specShouldMerge thr cur next) :=
  inferInstanceAs (Decidable (_ ∧ _))

/-- Written from the words of the spec: the merged section spans
`[left.start, right.end]` and carries `max` of the two confidences; the
category (and the remaining fields) are those of the left section. -/
def specMergedSection (cur next : Section) : Section :=
  { type := cur.type
    start_page := cur.start_page
    end_page := next.end_page
    confidence := max cur.confidence next.confidence
    header := cur.header }

/-- The marker loop of `build_sections` (lines 165-179): one section per
marker, ending one page before the next marker, the last one ending at
`total_pages - 1`. -/
def buildRanges (total_pages : Int) : List Marker → List Section
  | [] => []
  | [m] => [{ type := m.type, start_page := m.page, end_page := total_pages - 1,
              confidence := m.confidence, header := m.header }]
  | m :: m2 :: rest =>
    { type := m.type, start_page := m.page, end_page := m2.page - 1,
      confidence := m.confidence, header := m.header } :: buildRanges total_pages (m2 :: rest)

/-- Embedding of `AgreementSplitter.build_sections` (lines 153-184): empty marker list
gives the whole-document fallback section, otherwise the per-marker ranges
followed by the adjacent-section merge. -/
def build_sections (thr total_pages : Int) (markers : List Marker) : List Section :=
  if markers.isEmpty then
    [{ type := "Complete_Agreement", start_page := 0, end_page := total_pages - 1,
       confidence := 50, header := "Full document" }]
  else
    merge_sections thr (buildRanges total_pages markers)

/-- The Python format specifier `{num:02d}` for a non-negative counter:
pad a single digit with one leading zero. -/
def fmt02 (n : Nat) : String :=
  if n < 10 then "0" ++ toString n else toString n

/-- The filename computed at lines 252-255 of `split_pdf`: the zero-padded
sequence component appears exactly when the per-category counter already
exceeds 1 at this section. -/
def filename_for (sec : Section) (num : Nat) : String :=
  if num > 1 then
    sec.type ++ "_" ++ fmt02 num ++ "_p" ++ toString (sec.start_page + 1) ++ "-" ++
      toString (sec.end_page + 1) ++ ".pdf"
  else
    sec.type ++ "_p" ++ toString (sec.start_page + 1) ++ "-" ++
      toString (sec.end_page + 1) ++ ".pdf"

/-- Point update of the `counters` dictionary of `split_pdf`. -/
def updateCounter (cnt : String → Nat) (t : String) (v : Nat) : String → Nat :=
  fun u => if u = t then v else cnt u

/-- The loop of `split_pdf` (lines 232-266), abstracted to the decision
logic: sections below `min_pages` are skipped before the counter is touched,
surviving sections get `counters.get(stype, 0) + 1` as their number.  The
result pairs each emitted section with its assigned number; page copying and
file writing are external. -/
def split_plan (min_pages : Int) : (String → Nat) → List Section → List (Section × Nat)
  | _, [] => []
  | cnt, sec :: rest =>
    if sec.end_page - sec.start_page + 1 < min_pages then
      split_plan min_pages cnt rest
    else
      (sec, cnt sec.type + 1) ::
        split_plan min_pages (updateCounter cnt sec.type (cnt sec.type + 1)) rest

/-- Embedding of `AgreementSplitter.split_pdf` (lines 227-267) as the list of created
filenames, with every file write succeeding (a failed write only skips the
path, lines 259-265). -/
def split_pdf (min_pages : Int) (sections : List Section) : List String :=
  (split_plan min_pages (fun _ => 0) sections).map (fun p => filename_for p.1 p.2)

/-- Written from the words of the spec: a section survives the filter iff
its page count is at least `min_pages`. -/
def survives (min_pages : Int) (sec : Section) : Bool :=
  decide (min_pages ≤ sec.end_page - sec.start_page + 1)

/-- Written from the words of the spec: number every section in document
order, incrementing a per-category counter that starts at 1. -/
def numberByCat : (String → Nat) → List Section → List (Section × Nat)
  | _, [] => []
  | cnt, sec :: rest =>
    (sec, cnt sec.type + 1) ::
      numberByCat (updateCounter cnt sec.type (cnt sec.type + 1)) rest

/-- Written from the words of the amended claim: the plain name without a
sequence component. -/
def specPlainName (sec : Section) : String :=
  sec.type ++ "_p" ++ toString (sec.start_page + 1) ++ "-" ++
    toString (sec.end_page + 1) ++ ".pdf"

/-- Written from the words of the amended claim: the name carrying the
zero-padded sequence number. -/
def specNumberedName (sec : Section) (n : Nat) : String :=
  sec.type ++ "_" ++ fmt02 n ++ "_p" ++ toString (sec.start_page + 1) ++ "-" ++
    toString (sec.end_page + 1) ++ ".pdf"

/-- Quantifier of a regex token: exactly one, `?`, `*` or `+`. -/
inductive Quant where
  | one
  | opt
  | star
  | plus
  deriving Repr

/-- One token of the small regex subset used by `PATTERNS`: a character
class with a quantifier, or the end anchor `$`. Literal characters are
single-character classes. -/
inductive RTok where
  | cls (p : Char → Bool) (q : Quant)
  | endAnchor

/-- Backtracking matcher for a token list against a character list, with a
fuel argument for structural recursion.  Every recursive call strictly
decreases `ts.length + cs.length` (the star case keeps the token count and
consumes one character), so fuel `ts.length + cs.length + 1` is never
exhausted and the `0` case is unreachable. -/
def matchToksF : Nat → List RTok → List Char → Bool
  | 0, _, _ => false
  | _ + 1, [], _ => true
  | fuel + 1, RTok.endAnchor :: ts, cs => cs.isEmpty && matchToksF fuel ts cs
  | _ + 1, RTok.cls _ Quant.one :: _, [] => false
  | fuel + 1, RTok.cls p Quant.one :: ts, c :: cs => p c && matchToksF fuel ts cs
  | fuel + 1, RTok.cls _ Quant.opt :: ts, [] => matchToksF fuel ts []
  | fuel + 1, RTok.cls p Quant.opt :: ts, c :: cs =>
      matchToksF fuel ts (c :: cs) || (p c && matchToksF fuel ts cs)
  | fuel + 1, RTok.cls _ Quant.star :: ts, [] => matchToksF fuel ts []
  | fuel + 1, RTok.cls p Quant.star :: ts, c :: cs =>
      matchToksF fuel ts (c :: cs) || (p c && matchToksF fuel (RTok.cls p Quant.star :: ts) cs)
  | _ + 1, RTok.cls _ Quant.plus :: _, [] => false
  | fuel + 1, RTok.cls p Quant.plus :: ts, c :: cs =>
      p c && matchToksF fuel (RTok.cls p Quant.star :: ts) cs

/-- Matcher entry point.  An empty token list accepts (the match may end
anywhere), so `matchToks p s` is the truth value of Python `re.search` for
the `^`-anchored pattern `p` on `s` (without MULTILINE, `^` only matches at
position 0). -/
def matchToks (ts : List RTok) (cs : List Char) : Bool :=
  matchToksF (ts.length + cs.length + 1) ts cs

/-- A sequence of literal characters. -/
def litToks (s : String) : List RTok :=
  s.data.map (fun ch => RTok.cls (fun c => c == ch) Quant.one)

/-- A character class given by an explicit set of characters. -/
def clsIn (s : String) (q : Quant) : RTok :=
  RTok.cls (fun c => s.data.contains c) q

/-- Class `\s`, restricted to the ASCII whitespace characters Python maps there. -/
def spTok (q : Quant) : RTok :=
  RTok.cls (fun c =>
    c == ' ' || c == '\t' || c == '\n' || c == '\x0b' || c == '\x0c' || c == '\r') q

/-- Class `\d`, restricted to ASCII digits. -/
def digTok (q : Quant) : RTok :=
  RTok.cls Char.isDigit q

/-- A character range such as `[A-Z]`. -/
def rngTok (a b : Char) (q : Quant) : RTok :=
  RTok.cls (fun c => decide (a ≤ c ∧ c ≤ b)) q

/-- The two-entry character class between D and ENTENTE in the Lettres
patterns: both entries are the ASCII apostrophe, character 0x27. -/
def apostropheTok : RTok :=
  RTok.cls (fun c => c == Char.ofNat 39) Quant.one

/-- The class `[-–—:]` of hyphen, en dash, em dash and colon. -/
def dashTok : RTok :=
  clsIn "-–—:" Quant.one

/-- The class `[IVX\d]`. -/
def romanOrDigitTok (q : Quant) : RTok :=
  RTok.cls (fun c => c == 'I' || c == 'V' || c == 'X' || c.isDigit) q

/-- Python regex `^TABLE\s+DES\s+MATI[EÈ]RES`. -/
def patTocTable : List RTok :=
  litToks "TABLE" ++ [spTok Quant.plus] ++ litToks "DES" ++ [spTok Quant.plus] ++
    litToks "MATI" ++ [clsIn "EÈ" Quant.one] ++ litToks "RES"

/-- Python regex `^SOMMAIRE\s*$`. -/
def patTocSommaire : List RTok :=
  litToks "SOMMAIRE" ++ [spTok Quant.star, RTok.endAnchor]

/-- Python regex of line 32: LETTRE, optional S, spaces, D, the apostrophe
class, ENTENTE, spaces, N, optional O or degree sign, optional spaces,
digits. -/
def patLettreNum : List RTok :=
  litToks "LETTRE" ++ [clsIn "S" Quant.opt, spTok Quant.plus] ++ litToks "D" ++
    [apostropheTok] ++ litToks "ENTENTE" ++ [spTok Quant.plus] ++ litToks "N" ++
    [clsIn "O°" Quant.opt, spTok Quant.star, digTok Quant.plus]

/-- Python regex of line 33: LETTRE, optional S, spaces, D, the apostrophe
class, ENTENTE. -/
def patLettre : List RTok :=
  litToks "LETTRE" ++ [clsIn "S" Quant.opt, spTok Quant.plus] ++ litToks "D" ++
    [apostropheTok] ++ litToks "ENTENTE"

/-- Python regex `^M[ÉE]MORANDU?M`. -/
def patMemo : List RTok :=
  litToks "M" ++ [clsIn "ÉE" Quant.one] ++ litToks "MORAND" ++
    [clsIn "U" Quant.opt] ++ litToks "M"

/-- Python regex `^ANNEXE\s+[A-Z]\s*[-–—:]`. -/
def patAnnexeLetter : List RTok :=
  litToks "ANNEXE" ++ [spTok Quant.plus, rngTok 'A' 'Z' Quant.one, spTok Quant.star, dashTok]

/-- Python regex `^ANNEXE\s+[IVX]+\s*[-–—:]`. -/
def patAnnexeRoman : List RTok :=
  litToks "ANNEXE" ++ [spTok Quant.plus, clsIn "IVX" Quant.plus, spTok Quant.star, dashTok]

/-- Python regex `^ANNEXE\s+\d+\s*[-–—:]`. -/
def patAnnexeNum : List RTok :=
  litToks "ANNEXE" ++ [spTok Quant.plus, digTok Quant.plus, spTok Quant.star, dashTok]

/-- Python regex `^\d+\s+\d+ANNEXE\s+[A-Z]` (page number before ANNEXE). -/
def patPageAnnexe : List RTok :=
  [digTok Quant.plus, spTok Quant.plus, digTok Quant.plus] ++ litToks "ANNEXE" ++
    [spTok Quant.plus, rngTok 'A' 'Z' Quant.one]

/-- Python regex `^CHAPITRE\s+[IVX\d]+\s*[-–—:]`. -/
def patChapitre : List RTok :=
  litToks "CHAPITRE" ++ [spTok Quant.plus, romanOrDigitTok Quant.plus, spTok Quant.star, dashTok]

/-- Python regex `^SECTION\s+[IVX\d]+\s*[-–—:]`. -/
def patSectionArt : List RTok :=
  litToks "SECTION" ++ [spTok Quant.plus, romanOrDigitTok Quant.plus, spTok Quant.star, dashTok]

/-- Python regex `^SIGNATURES?\s*$`. -/
def patSignatures : List RTok :=
  litToks "SIGNATURE" ++ [clsIn "S" Quant.opt, spTok Quant.star, RTok.endAnchor]

/-- Python regex `^EN\s+FOI\s+DE\s+QUOI`. -/
def patEnFoi : List RTok :=
  litToks "EN" ++ [spTok Quant.plus] ++ litToks "FOI" ++ [spTok Quant.plus] ++
    litToks "DE" ++ [spTok Quant.plus] ++ litToks "QUOI"

/-- Embedding of `AgreementSplitter.PATTERNS` (lines 26-50), in dict insertion order,
each category with its ordered (pattern, base confidence) rules. -/
def PATTERNS : List (String × List (List RTok × Int)) :=
  [("TOC", [(patTocTable, 100), (patTocSommaire, 95)]),
   ("Lettres_Entente", [(patLettreNum, 100), (patLettre, 95), (patMemo, 90)]),
   ("Annexe", [(patAnnexeLetter, 100), (patAnnexeRoman, 100), (patAnnexeNum, 100),
               (patPageAnnexe, 95)]),
   ("Articles", [(patChapitre, 95), (patSectionArt, 95)]),
   ("Signatures", [(patSignatures, 90), (patEnFoi, 85)])]

/-- Python strings are sequences of characters, so the page-text helpers are
embedded over `List Char` (Lean `String` positions are byte-based and do not
evaluate in the kernel).  The whitespace set of Python `str.strip`,
restricted to ASCII. -/
def isPySpace (c : Char) : Bool :=
  c == ' ' || c == '\t' || c == '\n' || c == '\x0b' || c == '\x0c' || c == '\r'

/-- Python `str.strip()`: remove leading and trailing whitespace. -/
def pyStrip (l : List Char) : List Char :=
  ((l.dropWhile isPySpace).reverse.dropWhile isPySpace).reverse

/-- Python `text.split(chr(10))`: split on every newline, keeping empty
pieces, one piece even for the empty text. -/
def splitOnNl : List Char → List (List Char)
  | [] => [[]]
  | c :: rest =>
    if c = '\x0a' then [] :: splitOnNl rest
    else
      match splitOnNl rest with
      | [] => [[c]]
      | h :: t => (c :: h) :: t

/-- Python `str.upper`, modelled for ASCII letters and the French accented
letters relevant to this document class. -/
def pyUpperChar (c : Char) : Char :=
  if c == 'à' then 'À' else
  if c == 'â' then 'Â' else
  if c == 'ç' then 'Ç' else
  if c == 'è' then 'È' else
  if c == 'é' then 'É' else
  if c == 'ê' then 'Ê' else
  if c == 'ë' then 'Ë' else
  if c == 'î' then 'Î' else
  if c == 'ï' then 'Ï' else
  if c == 'ô' then 'Ô' else
  if c == 'ù' then 'Ù' else
  if c == 'û' then 'Û' else
  if c == 'ü' then 'Ü' else
  c.toUpper

/-- Python `str.upper` on a whole line. -/
def pyUpper (l : List Char) : List Char :=
  l.map pyUpperChar

/-- Python `str.isdigit` restricted to ASCII digits: true iff the line is
non-empty and all characters are digits. -/
def pyIsdigit (l : List Char) : Bool :=
  !l.isEmpty && l.all Char.isDigit

/-- The loop of `get_key_lines` (lines 88-96): strip each line, keep it when
it is non-empty, not purely numeric and longer than 2 characters, and break
as soon as `max_lines` lines are collected (the check runs after the
append, so even `max_lines = 0` yields one line, as in the Python code). -/
def keyLinesLoop (maxLines : Nat) : List (List Char) → List (List Char)
  | [] => []
  | line :: rest =>
    let cleaned := pyStrip line
    if cleaned.isEmpty = false ∧ pyIsdigit cleaned = false ∧ 2 < cleaned.length then
      if maxLines ≤ 1 then [cleaned]
      else cleaned :: keyLinesLoop (maxLines - 1) rest
    else keyLinesLoop maxLines rest

/-- Embedding of `AgreementSplitter.get_key_lines` (lines 86-96). -/
def get_key_lines (text : String) (max_lines : Nat) : List (List Char) :=
  keyLinesLoop max_lines (splitOnNl text.data)

/-- The catalog scan of one upper-cased line (lines 114-121): every rule of
every category in catalog order, first match wins. -/
def firstRuleMatch (lineUpper : List Char) : Option (String × Int) :=
  PATTERNS.findSome? (fun tp =>
    tp.2.findSome? (fun pc => if matchToks pc.1 lineUpper then some (tp.1, pc.2) else none))

/-- The line loop of `detect_section` (lines 111-121): lines in order with
their index, the confidence penalty of 10 applied when the match is not on
line 0, the matched line truncated to 80 characters. -/
def scanLines : Nat → List (List Char) → Option (String × Int × String)
  | _, [] => none
  | lineIdx, line :: rest =>
    match firstRuleMatch (pyUpper line) with
    | some (t, base) =>
      some (t, if lineIdx = 0 then base else base - 10, String.mk (line.take 80))
    | none => scanLines (lineIdx + 1) rest

/-- Embedding of `AgreementSplitter.detect_section` (lines 98-123): a pure function of
the page text; takes up to 3 significant lines but scans only `lines[:2]`. -/
def detect_section (text : String) : Option (String × Int × String) :=
  let lines := get_key_lines text 3
  if lines.isEmpty then none
  else scanLines 0 (lines.take 2)

/-- Written from the words of the spec: examine only the first two
significant lines; a first-line match returns the base confidence, a
second-line match the base confidence minus 10, anything else `None`.  Rule
testing is `firstRuleMatch`, the catalog in order on the upper-cased line. -/
def specDetect : List (List Char) → Option (String × Int × String)
  | [] => none
  | l1 :: rest =>
    match firstRuleMatch (pyUpper l1) with
    | some (t, base) => some (t, base, String.mk (l1.take 80))
    | none =>
      match rest with
      | [] => none
      | l2 :: _ =>
        match firstRuleMatch (pyUpper l2) with
        | some (t, base) => some (t, base - 10, String.mk (l2.take 80))
        | none => none

/-- The per-page acceptance step of `find_all_sections` (lines 135-148):
detect on the page text, keep the detection only when its confidence is at
least 80, recording the page index. -/
def markerAt (pages : List String) (i : Nat) : Option Marker :=
  match detect_section (pages.getD i "") with
  | some (t, c, h) =>
    if 80 ≤ c then some { type := t, page := (i : Int), confidence := c, header := h }
    else none
  | none => none

/-- Embedding of `AgreementSplitter.find_all_sections` (lines 125-151): scan the page
indices `0..total_pages-1` in order and collect the accepted markers. -/
def find_all_sections (pages : List String) : List Marker :=
  (List.range pages.length).filterMap (markerAt pages)

/-- The structured result dictionary returned by `process` (lines 286-302):
`success=True` with the output details, or `success=False` with the error
message and the input file. -/
inductive ProcessResult where
  | success (input_file : String) (sections_found files_created : Nat)
      (created_files : List String)
  | failure (error : String) (input_file : String)
  deriving DecidableEq, Repr

/-- Embedding of `AgreementSplitter.__init__` (lines 52-76): raises `FileNotFoundError`
when the input path does not exist (lines 65-66); the raise is modelled as
`Except.error` escaping to the caller.  Directory creation and threshold
storage are not needed by the claims. -/
def splitter_init (pathExists : String → Bool) (input_pdf : String) : Except String String :=
  if pathExists input_pdf then Except.ok input_pdf
  else Except.error ("File not found: " ++ input_pdf)

/-- The try-block body of `process` (lines 271-294).  The external
collaborators that can raise are parameters: `pdfRead` models `PdfReader`
on the input document (pages as their extracted texts, per-page extraction
failures already mapped to `""` by `extract_text`), `reportOk` models the
report write at lines 278-280.  Per-file write failures inside `split_pdf`
are caught locally (lines 259-265) and do not raise. -/
def process_body (thr min_pages : Int) (pdfRead : Except String (List String))
    (reportOk : Bool) (input_pdf : String) : Except String ProcessResult :=
  match pdfRead with
  | Except.error e => Except.error e
  | Except.ok pages =>
    let markers := find_all_sections pages
    let sections := build_sections thr (pages.length : Int) markers
    if reportOk then
      Except.ok (ProcessResult.success input_pdf sections.length
        (split_pdf min_pages sections).length (split_pdf min_pages sections))
    else Except.error "report write failed"

/-- Embedding of `AgreementSplitter.process` (lines 269-302): the whole body runs inside
try/except Exception, so every error raised within becomes a `failure`
record instead of propagating. -/
def process_doc (thr min_pages : Int) (pdfRead : Except String (List String))
    (reportOk : Bool) (input_pdf : String) : ProcessResult :=
  match process_body thr min_pages pdfRead reportOk input_pdf with
  | Except.ok r => r
  | Except.error e => ProcessResult.failure e input_pdf

/-- The single-document operation as `main` invokes it (lines 402-403):
construct the splitter, then call `process`.  In single-document mode the
constructor runs outside any try/except, so its `FileNotFoundError`
propagates to the caller — modelled by the `Except.error` outcome. -/
def single_document_operation (pathExists : String → Bool) (thr min_pages : Int)
    (pdfRead : Except String (List String)) (reportOk : Bool) (input_pdf : String) :
    Except String ProcessResult :=
  match splitter_init pathExists input_pdf with
  | Except.error e => Except.error e
  | Except.ok p => Except.ok (process_doc thr min_pages pdfRead reportOk p)

theorem merge_sections_cons (thr : Int) (s : Section) (rest : List Section) :
    merge_sections thr (s :: rest) = mergeAux thr s rest := by
  cases rest with
  | nil => simp [merge_sections, mergeAux]
  | cons b l => simp [merge_sections, mergeAux]

theorem mergeAux_head (thr : Int) :
    ∀ (l : List Section) (cur : Section), ∃ e c tl,
      mergeAux thr cur l = { cur with end_page := e, confidence := c } :: tl := by
  intro l
  induction l with
  | nil =>
    intro cur
    exact ⟨cur.end_page, cur.confidence, [], rfl⟩
  | cons next rest ih =>
    intro cur
    by_cases h : cur.type = next.type ∧ next.start_page - cur.end_page ≤ thr
    · obtain ⟨e, c, tl, htl⟩ := ih { cur with
        end_page := next.end_page,
        confidence := max cur.confidence next.confidence }
      refine ⟨e, c, tl, ?_⟩
      rw [mergeAux, if_pos h]
      exact htl
    · refine ⟨cur.end_page, cur.confidence, mergeAux thr next rest, ?_⟩
      rw [mergeAux, if_neg h]

theorem mergeAux_chain (thr : Int) :
    ∀ (l : List Section) (cur : Section),
      List.Chain' (fun a b => ¬(a.type = b.type ∧ b.start_page - a.end_page ≤ thr))
        (mergeAux thr cur l) := by
  intro l
  induction l with
  | nil =>
    intro cur
    simp [mergeAux]
  | cons next rest ih =>
    intro cur
    by_cases h : cur.type = next.type ∧ next.start_page - cur.end_page ≤ thr
    · simpa [mergeAux, h] using ih _
    · rw [mergeAux, if_neg h]
      rw [List.chain'_cons']
      refine ⟨?_, ih next⟩
      intro b hb
      obtain ⟨e, c, tl, htl⟩ := mergeAux_head thr rest next
      rw [htl] at hb
      simp only [List.head?_cons, Option.mem_def, Option.some.injEq] at hb
      subst hb
      simpa using h

theorem mergeAux_of_chain (thr : Int) :
    ∀ (l : List Section) (cur : Section),
      List.Chain' (fun a b => ¬(a.type = b.type ∧ b.start_page - a.end_page ≤ thr))
        (cur :: l) →
      mergeAux thr cur l = cur :: l := by
  intro l
  induction l with
  | nil =>
    intro cur _
    rfl
  | cons next rest ih =>
    intro cur hchain
    rw [List.chain'_cons] at hchain
    rw [mergeAux, if_neg hchain.1, ih next hchain.2]

/-- C5. `merge_sections` is idempotent for every threshold and every input
list: adjacent output sections always fail the merge condition, so a second
pass changes nothing. -/
theorem merge_sections_idempotent (thr : Int) (S : List Section) :
    merge_sections thr (merge_sections thr S) = merge_sections thr S := by
  cases S with
  | nil => rfl
  | cons s rest =>
    rw [merge_sections_cons]
    obtain ⟨e, c, tl, htl⟩ := mergeAux_head thr rest s
    have hchain := mergeAux_chain thr rest s
    rw [htl] at hchain ⊢
    rw [merge_sections_cons]
    exact mergeAux_of_chain thr tl _ hchain

/-- C4. One step of the merge walk behaves exactly as the spec describes:
the next section is absorbed iff the categories are identical and the gap is
at most the threshold, the merged span being `[left.start, right.end]` with
confidence `max`; otherwise the accumulator is flushed unchanged and the
next section starts a new accumulator. -/
theorem merge_step_matches_spec (thr : Int) (cur next : Section) (rest : List Section) :
    mergeAux thr cur (next :: rest) =
      if specShouldMerge thr cur next then mergeAux thr (specMergedSection cur next) rest
      else cur :: mergeAux thr next rest := by
  by_cases h : cur.type = next.type ∧ next.start_page - cur.end_page ≤ thr
  · rw [mergeAux, if_pos h, if_pos (show specShouldMerge thr cur next from h)]
    rfl
  · rw [mergeAux, if_neg h, if_neg (show ¬specShouldMerge thr cur next from h)]

theorem mergeAux_mem_frame (thr : Int) :
    ∀ (l : List Section) (cur s : Section), s ∈ mergeAux thr cur l →
      (s.type = cur.type ∧ s.start_page = cur.start_page ∧ s.header = cur.header) ∨
      ∃ t ∈ l, s.type = t.type ∧ s.start_page = t.start_page ∧ s.header = t.header := by
  intro l
  induction l with
  | nil =>
    intro cur s hs
    rw [mergeAux, List.mem_singleton] at hs
    subst hs
    exact Or.inl ⟨rfl, rfl, rfl⟩
  | cons next rest ih =>
    intro cur s hs
    by_cases h : cur.type = next.type ∧ next.start_page - cur.end_page ≤ thr
    · rw [mergeAux, if_pos h] at hs
      rcases ih _ s hs with hl | ⟨t, ht, hts⟩
      · exact Or.inl hl
      · exact Or.inr ⟨t, List.mem_cons_of_mem _ ht, hts⟩
    · rw [mergeAux, if_neg h, List.mem_cons] at hs
      rcases hs with hs | hs
      · subst hs
        exact Or.inl ⟨rfl, rfl, rfl⟩
      · rcases ih next s hs with hl | ⟨t, ht, hts⟩
        · exact Or.inr ⟨next, List.mem_cons_self _ _, hl⟩
        · exact Or.inr ⟨t, List.mem_cons_of_mem _ ht, hts⟩

/-- C10. Absorbing a following section into the accumulator changes only
`end_page` and `confidence`: category, `start_page` and `header` stay those
of the leftmost section, and every section of the merged output carries the
category, start page and header of some input section (the leftmost of its
run). -/
theorem merge_frame_effect (thr : Int) :
    (∀ (cur next : Section) (rest : List Section), specShouldMerge thr cur next →
        mergeAux thr cur (next :: rest) =
          mergeAux thr { type := cur.type, start_page := cur.start_page,
                         end_page := next.end_page,
                         confidence := max cur.confidence next.confidence,
                         header := cur.header } rest) ∧
    (∀ (S : List Section) (s : Section), s ∈ merge_sections thr S →
        ∃ t ∈ S, s.type = t.type ∧ s.start_page = t.start_page ∧ s.header = t.header) := by
  constructor
  · intro cur next rest h
    rw [mergeAux, if_pos (show cur.type = next.type ∧ next.start_page - cur.end_page ≤ thr from h)]
  · intro S s hs
    cases S with
    | nil => simp [merge_sections] at hs
    | cons s0 rest =>
      rw [merge_sections_cons] at hs
      rcases mergeAux_mem_frame thr rest s0 s hs with hl | ⟨t, ht, hts⟩
      · exact ⟨s0, List.mem_cons_self _ _, hl⟩
      · exact ⟨t, List.mem_cons_of_mem _ ht, hts⟩

theorem merge_frame_effect_witness :
    (mergeAux 5 ⟨"Annexe", 2, 5, 100, "ANNEXE A - X"⟩ [⟨"Annexe", 6, 11, 90, "ANNEXE B - Y"⟩] =
      [⟨"Annexe", 2, 11, 100, "ANNEXE A - X"⟩]) ∧
    (∃ t ∈ [(⟨"Annexe", 2, 5, 100, "ANNEXE A - X"⟩ : Section),
            ⟨"Annexe", 6, 11, 90, "ANNEXE B - Y"⟩],
        ("Annexe" : String) = t.type ∧ (2 : Int) = t.start_page ∧
        ("ANNEXE A - X" : String) = t.header) := by
  constructor
  · rw [(merge_frame_effect 5).1 ⟨"Annexe", 2, 5, 100, "ANNEXE A - X"⟩
      ⟨"Annexe", 6, 11, 90, "ANNEXE B - Y"⟩ [] (by decide)]
    decide
  · exact (merge_frame_effect 5).2
      [⟨"Annexe", 2, 5, 100, "ANNEXE A - X"⟩, ⟨"Annexe", 6, 11, 90, "ANNEXE B - Y"⟩]
      ⟨"Annexe", 2, 11, 100, "ANNEXE A - X"⟩ (by decide)

/-- C6. With an empty marker list, `build_sections` yields exactly the one
fallback section (category `Complete_Agreement` in the code) spanning
`[0, total_pages - 1]` with confidence 50, and merging leaves it unchanged. -/
theorem build_sections_empty_markers (thr total_pages : Int) :
    build_sections thr total_pages [] =
      [{ type := "Complete_Agreement", start_page := 0, end_page := total_pages - 1,
         confidence := 50, header := "Full document" }] ∧
    merge_sections thr (build_sections thr total_pages []) =
      [{ type := "Complete_Agreement", start_page := 0, end_page := total_pages - 1,
         confidence := 50, header := "Full document" }] := by
  exact ⟨rfl, rfl⟩

theorem buildRanges_singleton (total : Int) (m : Marker) :
    buildRanges total [m] =
      [{ type := m.type, start_page := m.page, end_page := total - 1,
         confidence := m.confidence, header := m.header }] := rfl

theorem buildRanges_cons_cons (total : Int) (m m2 : Marker) (rest : List Marker) :
    buildRanges total (m :: m2 :: rest) =
      { type := m.type, start_page := m.page, end_page := m2.page - 1,
        confidence := m.confidence, header := m.header } :: buildRanges total (m2 :: rest) := rfl

theorem pages_lt_of_chain (total : Int) :
    ∀ (l : List Marker), List.Chain' (fun a b => a.page < b.page) l →
      (∀ x ∈ l.getLast?, x.page < total) → ∀ m ∈ l, m.page < total := by
  intro l
  induction l with
  | nil => intro _ _ m hm; cases hm
  | cons m tail ih =>
    intro hasc hlast x hx
    cases tail with
    | nil =>
      rw [List.mem_singleton] at hx
      subst hx
      exact hlast x rfl
    | cons m2 rest =>
      rw [List.chain'_cons] at hasc
      rw [List.getLast?_cons_cons] at hlast
      have htail : ∀ y ∈ m2 :: rest, y.page < total := ih hasc.2 hlast
      rcases List.mem_cons.mp hx with rfl | hx
      · have := htail m2 (List.mem_cons_self _ _)
        omega
      · exact htail x hx

theorem buildRanges_spec (total : Int) :
    ∀ (ms : List Marker), List.Chain' (fun a b => a.page < b.page) ms →
      (∀ m ∈ ms, m.page < total) →
      List.Forall₂ (fun (s : Section) (m : Marker) =>
          s.type = m.type ∧ s.start_page = m.page ∧ s.confidence = m.confidence ∧
          s.header = m.header) (buildRanges total ms) ms ∧
      List.Pairwise (fun a b => a.end_page < b.start_page) (buildRanges total ms) ∧
      (∀ s ∈ buildRanges total ms, ∀ fp ∈ ms.head?, fp.page ≤ s.start_page) ∧
      (∀ fp ∈ ms.head?, ∀ p : Int,
        ((∃ s ∈ buildRanges total ms, s.start_page ≤ p ∧ p ≤ s.end_page) ↔
          (fp.page ≤ p ∧ p ≤ total - 1))) := by
  intro ms
  induction ms with
  | nil =>
    intro _ _
    refine ⟨List.Forall₂.nil, List.Pairwise.nil, ?_, ?_⟩ <;> simp [buildRanges]
  | cons m tail ih =>
    intro hasc hall
    cases tail with
    | nil =>
      rw [buildRanges_singleton]
      refine ⟨List.Forall₂.cons ⟨rfl, rfl, rfl, rfl⟩ List.Forall₂.nil, List.pairwise_singleton _ _,
        ?_, ?_⟩
      · intro s hs fp hfp
        rw [List.mem_singleton] at hs
        simp only [List.head?_cons, Option.mem_def, Option.some.injEq] at hfp
        subst hs
        subst hfp
        exact le_refl _
      · intro fp hfp p
        simp only [List.head?_cons, Option.mem_def, Option.some.injEq] at hfp
        subst hfp
        simp only [List.mem_singleton]
        constructor
        · rintro ⟨s, rfl, hsp⟩
          exact hsp
        · intro hp
          exact ⟨_, rfl, hp⟩
    | cons m2 rest =>
      rw [List.chain'_cons] at hasc
      have h12 : m.page < m2.page := hasc.1
      have hm2lt : m2.page < total := hall m2 (List.mem_cons_of_mem _ (List.mem_cons_self _ _))
      have hall2 : ∀ x ∈ m2 :: rest, x.page < total :=
        fun x hx => hall x (List.mem_cons_of_mem _ hx)
      obtain ⟨ihF, ihP, ihS, ihU⟩ := ih hasc.2 hall2
      rw [buildRanges_cons_cons]
      refine ⟨List.Forall₂.cons ⟨rfl, rfl, rfl, rfl⟩ ihF, ?_, ?_, ?_⟩
      · rw [List.pairwise_cons]
        refine ⟨?_, ihP⟩
        intro b hb
        have hb2 : m2.page ≤ b.start_page := ihS b hb m2 rfl
        show m2.page - 1 < b.start_page
        omega
      · intro s hs fp hfp
        simp only [List.head?_cons, Option.mem_def, Option.some.injEq] at hfp
        subst hfp
        rcases List.mem_cons.mp hs with rfl | hs
        · exact le_refl _
        · have hb2 : m2.page ≤ s.start_page := ihS s hs m2 rfl
          omega
      · intro fp hfp p
        simp only [List.head?_cons, Option.mem_def, Option.some.injEq] at hfp
        subst hfp
        have hU := ihU m2 rfl p
        constructor
        · rintro ⟨s, hs, hsp⟩
          rcases List.mem_cons.mp hs with rfl | hs
          · have h1 : m.page ≤ p := hsp.1
            have h2 : p ≤ m2.page - 1 := hsp.2
            omega
          · have := hU.mp ⟨s, hs, hsp⟩
            omega
        · rintro ⟨hp1, hp2⟩
          by_cases hc : p ≤ m2.page - 1
          · exact ⟨_, List.mem_cons_self _ _, hp1, hc⟩
          · obtain ⟨s, hs, hsp⟩ := hU.mpr ⟨by omega, hp2⟩
            exact ⟨s, List.mem_cons_of_mem _ hs, hsp⟩

/-- C1 (amended). For a non-empty, strictly ascending marker list whose last
page is below `total_pages`, the pre-merge section list has one section per
marker in order (same category, start page, confidence and header), the
sections are pairwise disjoint, and their union is exactly
`[first_marker.page, total_pages - 1]` — not `[0, total_pages - 1]` when the
first marker starts after page 0. -/
theorem build_ranges_partition (total : Int) (ms : List Marker)
    (_hne : ms ≠ [])
    (hasc : List.Chain' (fun a b => a.page < b.page) ms)
    (hlast : ∀ x ∈ ms.getLast?, x.page < total) :
    List.Forall₂ (fun (s : Section) (m : Marker) =>
        s.type = m.type ∧ s.start_page = m.page ∧ s.confidence = m.confidence ∧
        s.header = m.header) (buildRanges total ms) ms ∧
    List.Pairwise (fun a b => a.end_page < b.start_page) (buildRanges total ms) ∧
    (∀ fp ∈ ms.head?, ∀ p : Int,
      ((∃ s ∈ buildRanges total ms, s.start_page ≤ p ∧ p ≤ s.end_page) ↔
        (fp.page ≤ p ∧ p ≤ total - 1))) := by
  have hall := pages_lt_of_chain total ms hasc hlast
  obtain ⟨hF, hP, _, hU⟩ := buildRanges_spec total ms hasc hall
  exact ⟨hF, hP, hU⟩

theorem build_ranges_partition_witness :
    (∃ s ∈ buildRanges 5 [⟨"TOC", 0, 100, "SOMMAIRE"⟩, ⟨"Annexe", 2, 95, "ANNEXE A - X"⟩],
        s.start_page ≤ 3 ∧ (3 : Int) ≤ s.end_page) ↔
      ((0 : Int) ≤ 3 ∧ (3 : Int) ≤ 5 - 1) :=
  (build_ranges_partition 5 [⟨"TOC", 0, 100, "SOMMAIRE"⟩, ⟨"Annexe", 2, 95, "ANNEXE A - X"⟩]
    (by decide) (by rw [List.chain'_pair]; decide) (by decide)).2.2
    ⟨"TOC", 0, 100, "SOMMAIRE"⟩ rfl 3

/-- C1 counterexample: a single accepted marker on page 1 of a 3-page
document satisfies every premise of the claim, yet page 0 is covered by no
produced section, so the union is not `[0, total_pages - 1]`. -/
theorem build_ranges_gap_counterexample :
    ([(⟨"TOC", 1, 100, "SOMMAIRE"⟩ : Marker)] ≠ []) ∧
    List.Chain' (fun a b : Marker => a.page < b.page) [⟨"TOC", 1, 100, "SOMMAIRE"⟩] ∧
    (∀ x ∈ ([(⟨"TOC", 1, 100, "SOMMAIRE"⟩ : Marker)]).getLast?, x.page < 3) ∧
    ¬(∃ s ∈ buildRanges 3 [⟨"TOC", 1, 100, "SOMMAIRE"⟩],
        s.start_page ≤ 0 ∧ (0 : Int) ≤ s.end_page) := by
  refine ⟨by decide, List.chain'_singleton _, ?_, by decide⟩
  intro x hx
  simp only [List.getLast?_singleton, Option.mem_def, Option.some.injEq] at hx
  subst hx
  decide

theorem split_plan_eq_numberByCat (min_pages : Int) :
    ∀ (sections : List Section) (cnt : String → Nat),
      split_plan min_pages cnt sections =
        numberByCat cnt (sections.filter (survives min_pages)) := by
  intro sections
  induction sections with
  | nil => intro cnt; rfl
  | cons sec rest ih =>
    intro cnt
    by_cases h : sec.end_page - sec.start_page + 1 < min_pages
    · have hs : survives min_pages sec = false := by
        simp only [survives, decide_eq_false_iff_not]
        omega
      rw [split_plan, if_pos h, List.filter_cons, hs]
      exact ih cnt
    · have hs : survives min_pages sec = true := by
        simp only [survives, decide_eq_true_eq]
        omega
      rw [split_plan, if_neg h, List.filter_cons, hs]
      simp only [numberByCat]
      rw [ih]

theorem numberByCat_seq (c : String) :
    ∀ (l : List Section) (cnt : String → Nat),
      ((numberByCat cnt l).filter (fun p => p.1.type == c)).map Prod.snd =
        List.range' (cnt c + 1) ((l.filter (fun s => s.type == c)).length) := by
  intro l
  induction l with
  | nil => intro cnt; rfl
  | cons sec rest ih =>
    intro cnt
    rw [numberByCat, List.filter_cons, List.filter_cons]
    by_cases h : sec.type = c
    · have hb : ((sec, cnt sec.type + 1).1.type == c) = true := by
        simp [h]
      rw [hb, if_pos rfl, if_pos rfl]
      simp only [List.map_cons, List.length_cons, ih]
      rw [List.range'_succ]
      have hup : updateCounter cnt sec.type (cnt sec.type + 1) c = cnt c + 1 := by
        simp [updateCounter, h]
      rw [hup, h]
    · have hb : ((sec, cnt sec.type + 1).1.type == c) = false := by
        simp [h]
      rw [hb, if_neg (by decide), if_neg (by decide), ih]
      have hup : updateCounter cnt sec.type (cnt sec.type + 1) c = cnt c := by
        simp only [updateCounter]
        rw [if_neg (fun hc => h hc.symm)]
      rw [hup]

/-- C7. A section is excluded from the output plan iff its page count is
below `min_pages`; excluded sections never touch their category counter, and
for every category the surviving sections receive the numbers 1, 2, ...
contiguously in document order. -/
theorem split_plan_filter_and_sequence (min_pages : Int) (sections : List Section) :
    split_plan min_pages (fun _ => 0) sections =
      numberByCat (fun _ => 0) (sections.filter (survives min_pages)) ∧
    (∀ c : String,
      (((split_plan min_pages (fun _ => 0) sections).filter
          (fun p => p.1.type == c)).map Prod.snd) =
        List.range' 1
          (((sections.filter (survives min_pages)).filter (fun s => s.type == c)).length)) := by
  refine ⟨split_plan_eq_numberByCat min_pages sections _, ?_⟩
  intro c
  rw [split_plan_eq_numberByCat min_pages sections _]
  exact numberByCat_seq c _ _

/-- C2 counterexample: two surviving `Annexe` sections; the code names the
first `Annexe_p1-2.pdf`, without the `_01_` sequence component the claim
requires for the first of several same-category survivors. -/
theorem split_pdf_first_name_counterexample :
    split_pdf 1 [⟨"Annexe", 0, 1, 100, "HA"⟩, ⟨"Annexe", 2, 3, 95, "HB"⟩] =
      ["Annexe_p1-2.pdf", "Annexe_02_p3-4.pdf"] ∧
    "Annexe_p1-2.pdf" ≠ "Annexe_01_p1-2.pdf" := by
  exact ⟨rfl, by decide⟩

theorem numberByCat_pos :
    ∀ (l : List Section) (cnt : String → Nat) (p : Section × Nat),
      p ∈ numberByCat cnt l → 1 ≤ p.2 := by
  intro l
  induction l with
  | nil => intro cnt p hp; cases hp
  | cons sec rest ih =>
    intro cnt p hp
    rw [numberByCat, List.mem_cons] at hp
    rcases hp with rfl | hp
    · exact Nat.succ_le_succ (Nat.zero_le _)
    · exact ih _ p hp

/-- C2 (amended). The derived filename of a surviving section carries the
zero-padded sequence component iff its per-category sequence number `n`
exceeds 1: the first survivor of a category is always named
`{C}_p{s+1}-{e+1}.pdf`, even when further survivors of the same category
follow; later ones are named `{C}_{n:02d}_p{s+1}-{e+1}.pdf`. -/
theorem split_pdf_naming (min_pages : Int) (sections : List Section) :
    split_pdf min_pages sections =
      (numberByCat (fun _ => 0) (sections.filter (survives min_pages))).map
        (fun p => if p.2 = 1 then specPlainName p.1 else specNumberedName p.1 p.2) := by
  rw [split_pdf, split_plan_eq_numberByCat min_pages sections _]
  apply List.map_congr_left
  intro p hp
  have h1 := numberByCat_pos _ _ p hp
  by_cases h : p.2 = 1
  · rw [if_pos h, filename_for, if_neg (by omega)]
    rfl
  · rw [if_neg h, filename_for, if_pos (by omega)]
    rfl

/-- C3. The detector is a pure function of the page text that depends only
on the first two significant lines: lines are tested in order, within a
line every rule of every category in catalog order on the upper-cased line,
returning on the first match with the base confidence (first line) or base
confidence minus 10 (second line), and `None` when neither of the first two
lines matches or no significant line exists. -/
theorem detect_section_first_two_lines (text : String) :
    detect_section text = specDetect ((get_key_lines text 3).take 2) := by
  cases h : get_key_lines text 3 with
  | nil => simp [detect_section, h, specDetect]
  | cons l1 tl =>
    cases tl with
    | nil =>
      simp only [detect_section, h, List.isEmpty_cons, Bool.false_eq_true, if_false,
        List.take_succ_cons, List.take_nil]
      cases hm : firstRuleMatch (pyUpper l1) with
      | none => simp [scanLines, specDetect, hm]
      | some v =>
        obtain ⟨t, b⟩ := v
        simp [scanLines, specDetect, hm]
    | cons l2 tl2 =>
      simp only [detect_section, h, List.isEmpty_cons, Bool.false_eq_true, if_false,
        List.take_succ_cons, List.take_zero]
      cases hm : firstRuleMatch (pyUpper l1) with
      | some v =>
        obtain ⟨t, b⟩ := v
        simp [scanLines, specDetect, hm]
      | none =>
        cases hm2 : firstRuleMatch (pyUpper l2) with
        | none => simp [scanLines, specDetect, hm, hm2]
        | some v =>
          obtain ⟨t, b⟩ := v
          simp [scanLines, specDetect, hm, hm2]

theorem markerAt_eq_some (pages : List String) (i : Nat) (m : Marker) :
    markerAt pages i = some m ↔
      (m.page = (i : Int) ∧
        detect_section (pages.getD i "") = some (m.type, m.confidence, m.header) ∧
        80 ≤ m.confidence) := by
  obtain ⟨mt, mp, mc, mh⟩ := m
  unfold markerAt
  cases hd : detect_section (pages.getD i "") with
  | none => simp
  | some v =>
    obtain ⟨t, c, h⟩ := v
    by_cases hc : 80 ≤ c
    · simp only [hc, if_true, Option.some.injEq, Marker.mk.injEq, Prod.mk.injEq]
      constructor
      · rintro ⟨rfl, rfl, rfl, rfl⟩
        exact ⟨rfl, ⟨rfl, rfl, rfl⟩, hc⟩
      · rintro ⟨h1, ⟨rfl, rfl, rfl⟩, h3⟩
        exact ⟨rfl, h1.symm, rfl, rfl⟩
    · simp only [hc, if_false, reduceCtorEq, false_iff, not_and]
      intro _ hpair
      obtain ⟨_, rfl, _⟩ := Prod.mk.injEq .. ▸ Option.some.injEq .. ▸ hpair
      intro hmc
      exact hc hmc

/-- C8. The marker collector scans the pages in order and keeps a detection
iff its confidence is at least 80; the resulting marker list is strictly
ascending by page index (hence at most one marker per page), and a marker
is in the list iff its page is in range and the detector accepts it there
with confidence at least 80. -/
theorem find_all_sections_spec (pages : List String) :
    List.Pairwise (fun a b => a.page < b.page) (find_all_sections pages) ∧
    (∀ m : Marker, m ∈ find_all_sections pages ↔
      ∃ i : Nat, i < pages.length ∧ m.page = (i : Int) ∧
        detect_section (pages.getD i "") = some (m.type, m.confidence, m.header) ∧
        80 ≤ m.confidence) := by
  constructor
  · apply List.Pairwise.filterMap (markerAt pages) ?_ (List.pairwise_lt_range _)
    intro i j hij m hm m' hm'
    have h1 := ((markerAt_eq_some pages i m).mp hm).1
    have h2 := ((markerAt_eq_some pages j m').mp hm').1
    rw [h1, h2]
    exact_mod_cast hij
  · intro m
    constructor
    · intro hm
      obtain ⟨i, hi, hfi⟩ := List.mem_filterMap.mp hm
      rw [List.mem_range] at hi
      obtain ⟨h1, h2, h3⟩ := (markerAt_eq_some pages i m).mp hfi
      exact ⟨i, hi, h1, h2, h3⟩
    · rintro ⟨i, hi, h1, h2, h3⟩
      exact List.mem_filterMap.mpr
        ⟨i, List.mem_range.mpr hi, (markerAt_eq_some pages i m).mpr ⟨h1, h2, h3⟩⟩

/-- C9 counterexample: when the input path does not exist, the constructor
raises `FileNotFoundError` before `process` can run, so the single-document
operation surfaces an exception — not a structured success/failure
result.  Only batch mode wraps the construction in try/except. -/
theorem process_raises_on_missing_input :
    single_document_operation (fun _ => false) 5 2 (Except.ok []) true "missing.pdf" =
      Except.error ("File not found: missing.pdf") := rfl

/-- C9 (amended). Once the splitter is constructed — the input path exists —
the single-document operation never raises past its boundary: for every
outcome of the fallible collaborators (document reading, report writing) it
returns a structured success or failure record.  For a missing input path
the constructor itself raises, and the structured-failure handling of that
case exists only in batch mode. -/
theorem process_structured_when_input_exists (pathExists : String → Bool)
    (thr min_pages : Int) (pdfRead : Except String (List String)) (reportOk : Bool)
    (input_pdf : String) (h : pathExists input_pdf = true) :
    ∃ r : ProcessResult,
      single_document_operation pathExists thr min_pages pdfRead reportOk input_pdf =
        Except.ok r := by
  unfold single_document_operation splitter_init
  rw [if_pos h]
  exact ⟨_, rfl⟩

theorem process_structured_when_input_exists_witness :
    ∃ r : ProcessResult,
      single_document_operation (fun _ => true) 5 2 (Except.ok ["SOMMAIRE\x0aintro"]) true
        "doc.pdf" = Except.ok r :=
  process_structured_when_input_exists (fun _ => true) 5 2 (Except.ok ["SOMMAIRE\x0aintro"])
    true "doc.pdf" rfl

/-- Sample evaluation of the detector: a SOMMAIRE heading on the second
significant line gets the base confidence 95 minus the 10 penalty. -/
theorem detect_section_sample_penalty :
    detect_section "Preamble text here\x0aSOMMAIRE" = some ("TOC", 85, "SOMMAIRE") := by
  decide

/-- Sample evaluation of the detector: an Annexe heading with an em dash
matches on the first significant line at base confidence 100, after a
purely numeric page-number line is discarded. -/
theorem detect_section_sample_annexe :
    detect_section " 12 \x0aAnnexe B — budget" = some ("Annexe", 100, "Annexe B — budget") := by
  decide

end SplitAgreement
